import Mathlib

/-!
Verification of the currency-conversion widget in `src/main.js`
(`aedity02/nepaltemittance`).

Modelling conventions:
* JS numbers are modelled as exact rationals (`ℚ`).  `Number.prototype.toFixed(2)`
  is modelled by `fixScaled`: the ES specification extracts the sign of a negative
  number first and then picks the integer `n` closest to `|x| * 100` (ties towards
  the larger `n`), i.e. rounding half up on the absolute value.
* Strings are Lean `String`s; digit strings produced by `toFixed` are modelled as
  lists of digit characters.
* The `while` loop of `formatNPR` and the recursive chunking used by the spec are
  written with an explicit fuel argument so that they are structurally recursive
  and evaluate inside the kernel; the fuel (`length + 1`) always suffices because
  every iteration shortens the list.
* `parseFloat` followed by `|| 0` is modelled by `parseFloatQ` / `parseFloatOrZero`:
  longest numeric prefix (optional sign, integer digits, optional fraction,
  optional exponent) after leading whitespace, `none` (JS `NaN`) degrading to `0`.
* The DOM is modelled by the `Display` record holding the strings the code writes
  (`resultAmount`, its colour, `resultRate`, `ratesBody`).
-/

/-- The character for a decimal digit `d < 10` (`'0'` has code 48). -/
def digitChar (d : ℕ) : Char := Char.ofNat (48 + d)

/-- Decimal digits of `n`, least significant first, with explicit fuel. -/
def natDigitsRevAux : ℕ → ℕ → List Char
  | 0, _ => []
  | fuel + 1, n =>
    if n < 10 then [digitChar n]
    else digitChar (n % 10) :: natDigitsRevAux fuel (n / 10)

/-- Decimal digit characters of `n`, most significant first (`"0"` for `0`),
as produced by JS number-to-string for a nonnegative integer. -/
def natDigitsChars (n : ℕ) : List Char := (natDigitsRevAux (n + 1) n).reverse

/-- The two-character decimal part `toFixed(2)` appends after the dot, for `d < 100`. -/
def twoDigitsStr (d : ℕ) : String := String.mk [digitChar (d / 10 % 10), digitChar (d % 10)]

/-- `toFixed(2)` rounding, on the scale of hundredths: the numerator of the
2-decimal fixed representation of `|q|` (round to nearest, half away from zero,
as ES `toFixed` does after extracting the sign). -/
def fixScaled (q : ℚ) : ℕ := (⌊|q| * 100 + 1 / 2⌋).toNat

/-- JS `str.slice(-n)` on a list of characters: the last `n` characters
(the whole list when it is shorter than `n`). -/
def sliceLast (l : List Char) (n : ℕ) : List Char := l.drop (l.length - n)

/-- JS `str.slice(0, -n)` on a list of characters: everything but the last `n`
characters (empty when the list is shorter than `n`). -/
def dropLastN (l : List Char) (n : ℕ) : List Char := l.take (l.length - n)

/-- The `while (remaining.length > 0)` loop of `formatNPR`
(src/main.js lines 147-150), with fuel: repeatedly peel the last two remaining
characters and prepend them, comma-separated, to the formatted string. -/
def npGroupLoopAux : ℕ → List Char → String → String
  | 0, _, formatted => formatted
  | fuel + 1, remaining, formatted =>
    if remaining = [] then formatted
    else npGroupLoopAux fuel (dropLastN remaining 2)
      (String.mk (sliceLast remaining 2) ++ "," ++ formatted)

/-- The grouping loop of `formatNPR` run to completion. -/
def npGroupLoop (remaining : List Char) (formatted : String) : String :=
  npGroupLoopAux (remaining.length + 1) remaining formatted

/-- The grouped integer part of `formatNPR` (src/main.js lines 141-151):
an integer part of at most 3 digits is used as-is, otherwise the last 3 digits
are the seed and the loop prepends 2-digit groups. -/
def intGroupedStr (q : ℚ) : String :=
  let intPart := natDigitsChars (fixScaled q / 100)
  if intPart.length ≤ 3 then String.mk intPart
  else npGroupLoop (dropLastN intPart 3) (String.mk (sliceLast intPart 3))

/-- The 2-digit decimal part `parts[1]` of `formatNPR` (src/main.js line 132). -/
def fracStr (q : ℚ) : String := twoDigitsStr (fixScaled q % 100)

/-- Shallow embedding of `formatNPR` (src/main.js lines 126-154): zero short-circuits
to the literal `"रू 0.00"`; otherwise the sign recorded from the `toFixed` output
(present exactly when the amount is negative), the prefix, the grouped absolute
integer part, a dot and the two decimal digits. -/
def formatNPR (amount : ℚ) : String :=
  if amount = 0 then "रू 0.00"
  else
    (if amount < 0 then "-" else "") ++ "रू " ++ intGroupedStr amount ++ "." ++ fracStr amount

/-- Shallow embedding of `rate.toFixed(2)` as used for the rate description
(src/main.js line 105) and the buy/sell table cells (lines 183-184). -/
def toFixed2 (q : ℚ) : String :=
  (if q < 0 then "-" else "") ++ String.mk (natDigitsChars (fixScaled q / 100)) ++ "." ++
    twoDigitsStr (fixScaled q % 100)

/-- Comma-join of a list of strings (the separator the Nepali grouping uses). -/
def joinComma : List String → String
  | [] => ""
  | [x] => x
  | x :: y :: rest => x ++ "," ++ joinComma (y :: rest)

/-- Chunks of 2 characters taken from the right end of a digit string, leftover of
1 or 2 digits leftmost, in left-to-right order, with fuel. -/
def chunks2Aux : ℕ → List Char → List String
  | 0, _ => []
  | fuel + 1, ds =>
    if ds.length ≤ 2 then (if ds = [] then [] else [String.mk ds])
    else chunks2Aux fuel (dropLastN ds 2) ++ [String.mk (sliceLast ds 2)]

/-- Chunks of 2 from the right, run to completion. -/
def chunks2FromRight (ds : List Char) : List String := chunks2Aux (ds.length + 1) ds

/-- Modelled from the spec (§4.3 NumberFormatter, steps 1-6): round to 2 decimals,
split; record the sign and work on the absolute integer part; at most 3 digits is
used as-is; otherwise the rightmost 3 digits form the last group and the remaining
digits are grouped in chunks of 2 from the right (leftover of 1 or 2 digits
leftmost), the groups joined by commas; output sign, prefix, space, grouped
digits, dot, fraction. -/
def formatNPRSpec (amount : ℚ) : String :=
  if amount = 0 then "रू 0.00"
  else
    let n := fixScaled amount
    let ds := natDigitsChars (n / 100)
    let grouped :=
      if ds.length ≤ 3 then String.mk ds
      else joinComma (chunks2FromRight (dropLastN ds 3) ++ [String.mk (sliceLast ds 3)])
    (if amount < 0 then "-" else "") ++ "रू " ++ grouped ++ "." ++ twoDigitsStr (n % 100)

/-- Evaluation rule for `fixScaled` at a nonnegative amount. -/
lemma fixScaled_of_floor {q : ℚ} {n : ℕ} (hq : 0 ≤ q) (h : ⌊q * 100 + 1 / 2⌋ = (n : ℤ)) :
    fixScaled q = n := by
  unfold fixScaled
  rw [abs_of_nonneg hq, h, Int.toNat_natCast]

/-- Evaluation rule for `fixScaled` at a nonpositive amount. -/
lemma fixScaled_of_floor_neg {q : ℚ} {n : ℕ} (hq : q ≤ 0) (h : ⌊-q * 100 + 1 / 2⌋ = (n : ℤ)) :
    fixScaled q = n := by
  unfold fixScaled
  rw [abs_of_nonpos hq, h, Int.toNat_natCast]

/-! ### Grouping lemmas: the `formatNPR` loop computes the spec's 2-chunking -/

lemma length_dropLastN (l : List Char) (n : ℕ) : (dropLastN l n).length = l.length - n := by
  simp [dropLastN]

lemma dropLastN_eq_nil_of_le {l : List Char} {n : ℕ} (h : l.length ≤ n) : dropLastN l n = [] := by
  simp [dropLastN, Nat.sub_eq_zero_of_le h]

lemma sliceLast_eq_self_of_le {l : List Char} {n : ℕ} (h : l.length ≤ n) : sliceLast l n = l := by
  simp [sliceLast, Nat.sub_eq_zero_of_le h]

lemma npGroupLoopAux_nil (fuel : ℕ) (acc : String) : npGroupLoopAux fuel [] acc = acc := by
  cases fuel <;> simp [npGroupLoopAux]

lemma joinComma_cons_of_ne_nil (x : String) {rest : List String} (h : rest ≠ []) :
    joinComma (x :: rest) = x ++ "," ++ joinComma rest := by
  cases rest with
  | nil => exact absurd rfl h
  | cons y t => rfl

lemma joinComma_append_pair (L : List String) (x y : String) :
    joinComma (L ++ [x ++ "," ++ y]) = joinComma (L ++ [x, y]) := by
  induction L with
  | nil => rfl
  | cons a L ih =>
    rw [List.cons_append, List.cons_append,
      joinComma_cons_of_ne_nil a (by simp), joinComma_cons_of_ne_nil a (by simp), ih]

lemma chunks2Aux_fuel_irrel : ∀ (f1 f2 : ℕ) (ds : List Char), ds.length < f1 → ds.length < f2 →
    chunks2Aux f1 ds = chunks2Aux f2 ds := by
  intro f1
  induction f1 with
  | zero => intro f2 ds h1 _; exact absurd h1 (Nat.not_lt_zero _)
  | succ f ih =>
    intro f2 ds h1 h2
    cases f2 with
    | zero => exact absurd h2 (Nat.not_lt_zero _)
    | succ g =>
      simp only [chunks2Aux]
      by_cases hlen : ds.length ≤ 2
      · simp [hlen]
      · simp only [hlen, if_neg]
        rw [ih g (dropLastN ds 2)
          (by rw [length_dropLastN]; omega) (by rw [length_dropLastN]; omega)]

lemma chunks2FromRight_small {ds : List Char} (hne : ds ≠ []) (hlen : ds.length ≤ 2) :
    chunks2FromRight ds = [String.mk ds] := by
  unfold chunks2FromRight
  simp only [chunks2Aux, hlen, if_pos, hne, if_neg, if_true]
  simp [hne]

lemma chunks2FromRight_big {ds : List Char} (hlen : 2 < ds.length) :
    chunks2FromRight ds = chunks2FromRight (dropLastN ds 2) ++ [String.mk (sliceLast ds 2)] := by
  have hstep : chunks2FromRight ds =
      chunks2Aux ds.length (dropLastN ds 2) ++ [String.mk (sliceLast ds 2)] := by
    unfold chunks2FromRight
    simp only [chunks2Aux]
    simp [Nat.not_le.mpr hlen]
  rw [hstep, chunks2Aux_fuel_irrel ds.length ((dropLastN ds 2).length + 1) (dropLastN ds 2)
    (by rw [length_dropLastN]; omega) (Nat.lt_succ_self _)]
  rfl

lemma npGroupLoopAux_eq_chunks : ∀ (fuel : ℕ) (r : List Char) (acc : String), r.length < fuel →
    npGroupLoopAux fuel r acc = joinComma (chunks2FromRight r ++ [acc]) := by
  intro fuel
  induction fuel with
  | zero => intro r acc h; exact absurd h (Nat.not_lt_zero _)
  | succ f ih =>
    intro r acc h
    by_cases hr : r = []
    · subst hr
      simp [npGroupLoopAux, chunks2FromRight, chunks2Aux, joinComma]
    · by_cases hlen : r.length ≤ 2
      · simp only [npGroupLoopAux, hr, if_neg, if_false]
        rw [dropLastN_eq_nil_of_le hlen, sliceLast_eq_self_of_le hlen, npGroupLoopAux_nil,
          chunks2FromRight_small hr hlen]
        simp only [List.cons_append, List.nil_append]
        rfl
      · simp only [npGroupLoopAux, hr, if_neg, if_false]
        have hlen' : 2 < r.length := Nat.not_le.mp hlen
        have hr1 : r.length ≥ 1 := by
          cases r with
          | nil => exact absurd rfl hr
          | cons a t => simp
        rw [ih (dropLastN r 2) _ (by rw [length_dropLastN]; omega)]
        rw [joinComma_append_pair, chunks2FromRight_big hlen']
        simp [List.append_assoc]

lemma npGroupLoop_eq_chunks (r : List Char) (acc : String) :
    npGroupLoop r acc = joinComma (chunks2FromRight r ++ [acc]) :=
  npGroupLoopAux_eq_chunks (r.length + 1) r acc (Nat.lt_succ_self _)

/-! ### The ConversionEngine: `parseFloat(...) || 0`, rates lookup, `convertCurrency` -/

/-- ES whitespace accepted (and skipped) by `parseFloat` before the number. -/
def isSpaceChar (c : Char) : Bool :=
  c == ' ' || c == '\t' || c == '\n' || c == '\r' || c == '\x0b' || c == '\x0c'

/-- Numeric value of a digit character. -/
def digitVal (c : Char) : ℕ := c.toNat - 48

/-- Value of a string of decimal digit characters, most significant first. -/
def digitsToNat (ds : List Char) : ℕ := ds.foldl (fun a c => 10 * a + digitVal c) 0

/-- The exponent part (`e`/`E`, optional sign, digits) accepted by `parseFloat`
after the mantissa; an `e` not followed by at least one digit contributes nothing. -/
def parseExponent (s : List Char) : ℤ :=
  if s.head? = some 'e' ∨ s.head? = some 'E' then
    let t := s.tail
    let esign : ℤ := if t.head? = some '-' then -1 else 1
    let t2 := if t.head? = some '-' ∨ t.head? = some '+' then t.tail else t
    let eds := t2.takeWhile Char.isDigit
    if eds = [] then 0 else esign * (digitsToNat eds : ℤ)
  else 0

/-- Shallow embedding of JS `parseFloat` on the characters of the input: skip
leading whitespace, read an optional sign, integer digits, an optional fraction
and an optional exponent, ignoring any trailing characters; `none` models `NaN`
(no digit found in either the integer or the fraction position). -/
def parseFloatQ (s : List Char) : Option ℚ :=
  let s1 := s.dropWhile isSpaceChar
  let sign : ℚ := if s1.head? = some '-' then -1 else 1
  let s2 := if s1.head? = some '-' ∨ s1.head? = some '+' then s1.tail else s1
  let intDs := s2.takeWhile Char.isDigit
  let s3 := s2.dropWhile Char.isDigit
  let fracDs := if s3.head? = some '.' then s3.tail.takeWhile Char.isDigit else []
  let s4 := if s3.head? = some '.' then s3.tail.dropWhile Char.isDigit else s3
  if intDs = [] ∧ fracDs = [] then none
  else some (sign * ((digitsToNat intDs : ℚ) + (digitsToNat fracDs : ℚ) / 10 ^ fracDs.length)
    * 10 ^ parseExponent s4)

/-- `parseFloat(elements.amount.value) || 0` (src/main.js line 93): an unparseable
amount (JS `NaN`) degrades to `0`. -/
def parseFloatOrZero (s : String) : ℚ := (parseFloatQ s.data).getD 0

/-- A buy/sell rate pair, one entry of `ratesData.rates`. -/
structure Rate where
  buy : ℚ
  sell : ℚ
deriving DecidableEq

/-- The loaded `ratesData` JSON (`{updated, rates}`); rates as an association list. -/
structure RatesData where
  updated : String
  rates : List (String × Rate)
deriving DecidableEq

/-- Outcome of `convertCurrency`: the early return when no rates are loaded, the
`showConversionError` path, or the formatted amount plus rate-description pair. -/
inductive ConvResult where
  | notReady : ConvResult
  | unknownCurrency : String → ConvResult
  | success : String → String → ConvResult
deriving DecidableEq

/-- The rate-description template literal of src/main.js line 113. -/
def rateDescription (currency : String) (rate : Rate) : String :=
  "1 " ++ currency ++ " = NPR " ++ toFixed2 rate.sell

/-- Shallow embedding of `convertCurrency` (src/main.js lines 87-114): a `null`
`ratesData` returns early; the raw amount parses with `parseFloat(...) || 0`; an
absent currency key reports `'Currency not available'`; otherwise the result is
`amount * rate.sell` formatted with `formatNPR`, plus the rate description. -/
def convertCurrency (ratesData : Option RatesData) (currency : String) (rawAmount : String) :
    ConvResult :=
  match ratesData with
  | none => ConvResult.notReady
  | some rd =>
    let amount := parseFloatOrZero rawAmount
    match rd.rates.lookup currency with
    | none => ConvResult.unknownCurrency "Currency not available"
    | some rate =>
      ConvResult.success (formatNPR (amount * rate.sell)) (rateDescription currency rate)

/-- The buy/sell cells of one row of the rates table (src/main.js lines 183-184). -/
def ratesRowCells (rate : Rate) : String × String := (toFixed2 rate.buy, toFixed2 rate.sell)

/-- The strings the code writes into the page, as an explicit record. -/
structure Display where
  resultAmount : String
  resultAmountColor : String
  resultRate : String
  ratesBody : String
deriving DecidableEq

/-- How `convertCurrency` updates the page (src/main.js lines 96, 108-114, 216-221):
the early return leaves everything unchanged; `showConversionError` overwrites the
result text and its colour only; success overwrites the result text and the rate
description. -/
def applyConvertResult (d : Display) : ConvResult → Display
  | ConvResult.notReady => d
  | ConvResult.unknownCurrency msg =>
    { d with resultAmount := msg, resultAmountColor := "#dc3545" }
  | ConvResult.success amt desc => { d with resultAmount := amt, resultRate := desc }

/-- The load-failure display update `showError` (src/main.js lines 210-212 for the
result area). -/
def showError (d : Display) : Display := { d with resultAmount := "Rates unavailable" }

/-- The demo snapshot used by the spec's test vector (`{"XXX": {buy:1, sell:100}}`). -/
def demoRate : Rate := { buy := 1, sell := 100 }

/-- A ready snapshot containing only the demo currency. -/
def demoSnap : RatesData := { updated := "2024-01-01", rates := [("XXX", demoRate)] }

/-- A concrete page state for frame-effect witnesses. -/
def demoDisplay : Display :=
  { resultAmount := "old result", resultAmountColor := "black",
    resultRate := "old rate", ratesBody := "old table" }

/-! ### The UpdateScheduler: `debounce` over a trace of triggers -/

/-- Semantics of the closure returned by `debounce` (src/main.js lines 224-234)
over a time-ordered trace of `Debounced` triggers `(time, args)`: every trigger
clears the pending timeout and schedules the action at `time + wait`; the pending
invocation fires only if the next trigger does not arrive strictly before its
deadline.  The result lists the performed invocations `(fire time, args)`. -/
def debounceRun (wait : ℕ) : List (ℕ × α) → List (ℕ × α)
  | [] => []
  | [(t, a)] => [(t + wait, a)]
  | (t, a) :: (t2, b) :: rest =>
    (if t2 < t + wait then [] else [(t + wait, a)]) ++ debounceRun wait ((t2, b) :: rest)

/-! ### Parsing lemmas -/

/-- A digit character is not whitespace and not a sign. -/
lemma isDigit_not_space_sign {c : Char} (h : c.isDigit = true) :
    isSpaceChar c = false ∧ c ≠ '-' ∧ c ≠ '+' := by
  refine ⟨?_, ?_, ?_⟩
  · simp only [isSpaceChar, Bool.or_eq_false_iff, beq_eq_false_iff_ne]
    refine ⟨⟨⟨⟨⟨?_, ?_⟩, ?_⟩, ?_⟩, ?_⟩, ?_⟩ <;> rintro rfl <;> exact absurd h (by decide)
  · rintro rfl; exact absurd h (by decide)
  · rintro rfl; exact absurd h (by decide)

lemma takeWhile_digit_prefix : ∀ (ds t : List Char), (∀ x ∈ ds, x.isDigit = true) →
    (∀ c ∈ t.head?, c.isDigit = false) →
    (ds ++ t).takeWhile Char.isDigit = ds ∧ (ds ++ t).dropWhile Char.isDigit = t := by
  intro ds
  induction ds with
  | nil =>
    intro t _ ht
    cases t with
    | nil => exact ⟨rfl, rfl⟩
    | cons c r =>
      have hc : c.isDigit = false := ht c (by simp)
      simp [List.takeWhile_cons, List.dropWhile_cons, hc]
  | cons d ds ih =>
    intro t hds ht
    have hd : d.isDigit = true := hds d (by simp)
    have hrec := ih t (fun x hx => hds x (by simp [hx])) ht
    simp [List.takeWhile_cons, List.dropWhile_cons, hd, hrec.1, hrec.2]

/-- A character that stops `parseFloat` after the digit prefix: not a digit, not a
decimal point, not an exponent marker. -/
def blocksNumericTail (c : Char) : Bool :=
  !c.isDigit && c != '.' && c != 'e' && c != 'E'

/-- `parseFloat` on a nonempty digit string followed by a blocking (or empty) tail
reads exactly the digit prefix. -/
lemma parseFloatQ_digit_prefix (ds t : List Char) (hne : ds ≠ [])
    (hds : ∀ x ∈ ds, x.isDigit = true)
    (ht : ∀ c ∈ t.head?, blocksNumericTail c = true) :
    parseFloatQ (ds ++ t) = some (digitsToNat ds : ℚ) := by
  obtain ⟨d, ds', rfl⟩ : ∃ d ds', ds = d :: ds' := by
    cases ds with
    | nil => exact absurd rfl hne
    | cons d ds' => exact ⟨d, ds', rfl⟩
  have hd : d.isDigit = true := hds d (by simp)
  obtain ⟨hdsp, hdm, hdp⟩ := isDigit_not_space_sign hd
  have htail : ∀ c ∈ t.head?, c.isDigit = false ∧ c ≠ '.' ∧ c ≠ 'e' ∧ c ≠ 'E' := by
    intro c hc
    have hb := ht c hc
    simp only [blocksNumericTail, Bool.and_eq_true, Bool.not_eq_true', bne_iff_ne] at hb
    exact ⟨hb.1.1.1, hb.1.1.2, hb.1.2, hb.2⟩
  have hsplit := takeWhile_digit_prefix (d :: ds') t hds (fun c hc => (htail c hc).1)
  have htake : List.takeWhile Char.isDigit (d :: (ds' ++ t)) = d :: ds' := by
    simpa using hsplit.1
  have hdropw : List.dropWhile Char.isDigit (d :: (ds' ++ t)) = t := by
    simpa using hsplit.2
  have hdrop : List.dropWhile isSpaceChar (d :: (ds' ++ t)) = d :: (ds' ++ t) := by
    simp [List.dropWhile_cons, hdsp]
  have hdm2 : (d = '-') = False := eq_false hdm
  have hdp2 : (d = '+') = False := eq_false hdp
  have hnotdot : (t.head? = some '.') = False := by
    apply eq_false
    cases t with
    | nil => simp
    | cons c r => simpa using (htail c (by simp)).2.1
  have hexp : parseExponent t = 0 := by
    cases t with
    | nil => simp [parseExponent]
    | cons c r =>
      have hc := htail c (by simp)
      simp [parseExponent, hc.2.2.1, hc.2.2.2]
  simp only [parseFloatQ, List.cons_append, hdrop, List.head?_cons, Option.some.injEq,
    hdm2, hdp2, or_self, if_false, htake, hdropw, hnotdot]
  rw [if_neg (by simp)]
  rw [hexp]
  have h0 : digitsToNat ([] : List Char) = 0 := rfl
  simp [h0]

/-- `parseFloat` on a nonempty all-digit string reads its value. -/
lemma parseFloatQ_digits (ds : List Char) (hne : ds ≠ [])
    (hds : ∀ x ∈ ds, x.isDigit = true) :
    parseFloatQ ds = some (digitsToNat ds : ℚ) := by
  have h := parseFloatQ_digit_prefix ds [] hne hds (by simp)
  simpa using h

/-! ### Character lemmas for the two-decimal invariant -/

lemma digitChar_isDigit {d : ℕ} (h : d < 10) : (digitChar d).isDigit = true := by
  interval_cases d <;> decide

lemma digitChar_ne_dot {d : ℕ} (h : d < 10) : digitChar d ≠ '.' := by
  interval_cases d <;> decide

lemma mem_natDigitsRevAux : ∀ (fuel n : ℕ) (c : Char), c ∈ natDigitsRevAux fuel n →
    ∃ d, d < 10 ∧ c = digitChar d := by
  intro fuel
  induction fuel with
  | zero => intro n c h; simp [natDigitsRevAux] at h
  | succ f ih =>
    intro n c h
    simp only [natDigitsRevAux] at h
    by_cases hn : n < 10
    · rw [if_pos hn] at h
      simp only [List.mem_singleton] at h
      exact ⟨n, hn, h⟩
    · rw [if_neg hn] at h
      rcases List.mem_cons.mp h with h1 | h1
      · exact ⟨n % 10, Nat.mod_lt _ (by norm_num), h1⟩
      · exact ih _ c h1

lemma mem_natDigitsChars {n : ℕ} {c : Char} (h : c ∈ natDigitsChars n) :
    ∃ d, d < 10 ∧ c = digitChar d :=
  mem_natDigitsRevAux _ _ _ (List.mem_reverse.mp h)

lemma str_data_append (a b : String) : (a ++ b).data = a.data ++ b.data := rfl

lemma mem_npGroupLoopAux : ∀ (fuel : ℕ) (r : List Char) (acc : String) (c : Char),
    c ∈ (npGroupLoopAux fuel r acc).data → c ∈ r ∨ c = ',' ∨ c ∈ acc.data := by
  intro fuel
  induction fuel with
  | zero => intro r acc c h; exact Or.inr (Or.inr h)
  | succ f ih =>
    intro r acc c h
    by_cases hr : r = []
    · subst hr
      simp only [npGroupLoopAux, if_pos] at h
      exact Or.inr (Or.inr h)
    · simp only [npGroupLoopAux, hr, if_false] at h
      rcases ih _ _ _ h with h1 | h1 | h1
      · exact Or.inl (List.take_subset _ _ h1)
      · exact Or.inr (Or.inl h1)
      · rw [str_data_append, str_data_append] at h1
        have hcomma : (",").data = [','] := rfl
        rw [hcomma] at h1
        rcases List.mem_append.mp h1 with h2 | h2
        · rcases List.mem_append.mp h2 with h3 | h3
          · exact Or.inl (List.drop_subset _ _ h3)
          · exact Or.inr (Or.inl (List.mem_singleton.mp h3))
        · exact Or.inr (Or.inr h2)

lemma mem_intGroupedStr {q : ℚ} {c : Char} (h : c ∈ (intGroupedStr q).data) :
    c = ',' ∨ ∃ d, d < 10 ∧ c = digitChar d := by
  simp only [intGroupedStr] at h
  by_cases hlen : (natDigitsChars (fixScaled q / 100)).length ≤ 3
  · rw [if_pos hlen] at h
    exact Or.inr (mem_natDigitsChars h)
  · rw [if_neg hlen] at h
    rcases mem_npGroupLoopAux _ _ _ _ h with h1 | h1 | h1
    · exact Or.inr (mem_natDigitsChars (List.take_subset _ _ h1))
    · exact Or.inl h1
    · exact Or.inr (mem_natDigitsChars (List.drop_subset _ _ h1))

/-- The shape "ends in a dot and exactly two decimal digit characters, with no
other dot anywhere before". -/
def hasTwoDecimals (s : String) : Prop :=
  ∃ pre d1 d2, s = pre ++ "." ++ String.mk [d1, d2] ∧ d1.isDigit = true ∧ d2.isDigit = true ∧
    '.' ∉ pre.data

/-! ### Concrete formatter evaluations shared by several results -/

lemma formatNPR_at_1234567 : formatNPR 1234567 = "रू 12,34,567.00" := by
  have h : fixScaled (1234567 : ℚ) = 123456700 := fixScaled_of_floor (by norm_num) (by norm_num)
  norm_num [formatNPR, intGroupedStr, fracStr, h]
  decide

lemma formatNPR_at_200 : formatNPR 200 = "रू 200.00" := by
  have h : fixScaled (200 : ℚ) = 20000 := fixScaled_of_floor (by norm_num) (by norm_num)
  norm_num [formatNPR, intGroupedStr, fracStr, h]
  decide

lemma formatNPR_at_1200 : formatNPR 1200 = "रू 1,200.00" := by
  have h : fixScaled (1200 : ℚ) = 120000 := fixScaled_of_floor (by norm_num) (by norm_num)
  norm_num [formatNPR, intGroupedStr, fracStr, h]
  decide

lemma formatNPR_at_neg : formatNPR (-1234.5 : ℚ) = "-रू 1,234.50" := by
  have h : fixScaled (-1234.5 : ℚ) = 123450 := fixScaled_of_floor_neg (by norm_num) (by norm_num)
  simp only [formatNPR, intGroupedStr, fracStr, h]
  norm_num
  decide

lemma toFixed2_at_100 : toFixed2 100 = "100.00" := by
  have h : fixScaled (100 : ℚ) = 10000 := fixScaled_of_floor (by norm_num) (by norm_num)
  norm_num [toFixed2, h]
  decide

lemma formatNPR_at_zero : formatNPR 0 = "रू 0.00" := by norm_num [formatNPR]

/-! ### The claims -/

/-- C1: for every amount, `formatNPR` produces exactly the string prescribed by the
spec's algorithm (round to 2 decimals, absolute integer part; more than 3 digits:
rightmost 3 digits are the last group, the rest is chunked in 2s from the right
with a 1- or 2-digit leftover leftmost); in particular 1234567 groups as
`12,34,567`, not `1,234,567`. -/
theorem formatNPR_refines_spec :
    (∀ q : ℚ, formatNPR q = formatNPRSpec q) ∧
    formatNPR 1234567 = "रू 12,34,567.00" ∧ formatNPR 1234567 ≠ "रू 1,234,567.00" := by
  refine ⟨?_, formatNPR_at_1234567, ?_⟩
  · intro q
    unfold formatNPR formatNPRSpec intGroupedStr fracStr
    simp only [npGroupLoop_eq_chunks]
  · rw [formatNPR_at_1234567]
    decide

/-- C7: `formatNPR 0` returns exactly the currency prefix followed by `" 0.00"`,
bypassing the sign and grouping logic, and (in the exact-rational model, where
`-0 = 0`, matching the JS `=== 0` test that also catches negative zero) the
format of negated zero carries no minus sign. -/
theorem format_zero :
    formatNPR 0 = "रू 0.00" ∧ formatNPR (-0 : ℚ) = "रू 0.00" ∧ "रू 0.00" = "रू" ++ " 0.00" := by
  refine ⟨formatNPR_at_zero, by norm_num [formatNPR], by decide⟩

/-- C8: for every negative amount the formatted string is, in order, the minus
sign, then the prefix (with its trailing space), then the grouped integer digits,
then the dot and the two fractional digits; in particular `formatNPR (-1234.50)`
puts the leading minus sign before the prefix. -/
theorem format_negative_order (q : ℚ) (hq : q < 0) :
    formatNPR q = "-" ++ "रू " ++ intGroupedStr q ++ "." ++ fracStr q ∧
    (fracStr q).length = 2 ∧
    formatNPR (-1234.5 : ℚ) = "-रू 1,234.50" := by
  refine ⟨?_, rfl, formatNPR_at_neg⟩
  rw [formatNPR, if_neg hq.ne, if_pos hq]

/-- Witness for C8 at the concrete negative amount from the spec. -/
theorem format_negative_order_witness :
    (-1234.5 : ℚ) < 0 ∧
    formatNPR (-1234.5 : ℚ) =
      "-" ++ "रू " ++ intGroupedStr (-1234.5 : ℚ) ++ "." ++ fracStr (-1234.5 : ℚ) :=
  ⟨by norm_num, (format_negative_order (-1234.5 : ℚ) (by norm_num)).1⟩

lemma parse_two : parseFloatOrZero "2" = 2 := by
  have h : parseFloatQ "2".data = some (digitsToNat ['2'] : ℚ) :=
    parseFloatQ_digits ['2'] (by simp) (by decide)
  rw [parseFloatOrZero, h]
  norm_num [show digitsToNat ['2'] = 2 from rfl]

/-- C2: with rates loaded and the requested currency present, `convertCurrency`
multiplies the parsed amount by that currency's sell rate (the formula uses only
`rate.sell`, never `rate.buy`) and describes the rate as
`"1 {code} = NPR {sell rate to 2 decimals}"`; on the spec's vector
(`sell = 100`, raw amount `"2"`) the result is 200 formatted and
`"1 XXX = NPR 100.00"`. -/
theorem convert_uses_sell_rate (rd : RatesData) (currency raw : String) (rate : Rate)
    (hlook : rd.rates.lookup currency = some rate) :
    convertCurrency (some rd) currency raw =
      ConvResult.success (formatNPR (parseFloatOrZero raw * rate.sell))
        (rateDescription currency rate) ∧
    rateDescription currency rate = "1 " ++ currency ++ " = NPR " ++ toFixed2 rate.sell ∧
    convertCurrency (some demoSnap) "XXX" "2" =
      ConvResult.success "रू 200.00" "1 XXX = NPR 100.00" := by
  refine ⟨by simp [convertCurrency, hlook], rfl, ?_⟩
  have hlook2 : demoSnap.rates.lookup "XXX" = some demoRate := rfl
  have hmul : parseFloatOrZero "2" * demoRate.sell = 200 := by
    rw [parse_two]; norm_num [demoRate]
  simp only [convertCurrency, hlook2, hmul, formatNPR_at_200]
  rw [rateDescription, show demoRate.sell = 100 from rfl, toFixed2_at_100]
  decide

/-- Witness for C2 on the demo snapshot. -/
theorem convert_uses_sell_rate_witness :
    demoSnap.rates.lookup "XXX" = some demoRate ∧
    convertCurrency (some demoSnap) "XXX" "2" =
      ConvResult.success (formatNPR (parseFloatOrZero "2" * demoRate.sell))
        (rateDescription "XXX" demoRate) :=
  ⟨rfl, (convert_uses_sell_rate demoSnap "XXX" "2" demoRate rfl).1⟩

/-- C3: when the raw amount has no parseable numeric prefix (for example `""` or
`"abc"`), `convertCurrency` treats the amount as zero and still succeeds (the
result is the formatted zero, `"रू 0.00"`), never an error outcome. -/
theorem malformed_amount_degrades_to_zero (rd : RatesData) (currency s : String) (rate : Rate)
    (hlook : rd.rates.lookup currency = some rate)
    (hparse : parseFloatQ s.data = none) :
    convertCurrency (some rd) currency s =
      ConvResult.success "रू 0.00" (rateDescription currency rate) ∧
    parseFloatQ "".data = none ∧ parseFloatQ "abc".data = none := by
  refine ⟨?_, by decide, by decide⟩
  have hz : parseFloatOrZero s = 0 := by rw [parseFloatOrZero, hparse]; rfl
  simp [convertCurrency, hlook, hz, formatNPR_at_zero]

/-- Witness for C3 at the raw amount `"abc"`. -/
theorem malformed_amount_degrades_to_zero_witness :
    demoSnap.rates.lookup "XXX" = some demoRate ∧ parseFloatQ "abc".data = none ∧
    convertCurrency (some demoSnap) "XXX" "abc" =
      ConvResult.success "रू 0.00" (rateDescription "XXX" demoRate) :=
  ⟨rfl, by decide,
    (malformed_amount_degrades_to_zero demoSnap "XXX" "abc" demoRate rfl (by decide)).1⟩

/-- C4: with no loaded snapshot (`ratesData` still `null`), `convertCurrency`
returns the typed `notReady` outcome, which is distinct from any
`unknownCurrency` outcome; the not-ready path writes nothing to the page, whose
"unavailable" text comes from the load-failure handler `showError` instead. -/
theorem convert_not_ready :
    (∀ currency raw, convertCurrency none currency raw = ConvResult.notReady) ∧
    (∀ msg, ConvResult.notReady ≠ ConvResult.unknownCurrency msg) ∧
    (∀ d : Display, applyConvertResult d ConvResult.notReady = d) ∧
    (∀ d : Display, (showError d).resultAmount = "Rates unavailable") :=
  ⟨fun _ _ => rfl, fun _ h => ConvResult.noConfusion h, fun _ => rfl, fun _ => rfl⟩

/-- C5: a currency code absent from the loaded rates makes `convertCurrency` fail
with the `unknownCurrency` outcome, and rendering that outcome overwrites only
the result display (text and colour), leaving the rates table and the rate
description untouched. -/
theorem unknown_currency_frame (rd : RatesData) (currency raw : String) (d : Display)
    (hlook : rd.rates.lookup currency = none) :
    convertCurrency (some rd) currency raw =
      ConvResult.unknownCurrency "Currency not available" ∧
    (applyConvertResult d (ConvResult.unknownCurrency "Currency not available")).ratesBody =
      d.ratesBody ∧
    (applyConvertResult d (ConvResult.unknownCurrency "Currency not available")).resultRate =
      d.resultRate ∧
    (applyConvertResult d (ConvResult.unknownCurrency "Currency not available")).resultAmount =
      "Currency not available" :=
  ⟨by simp [convertCurrency, hlook], rfl, rfl, rfl⟩

/-- Witness for C5: the demo snapshot does not carry `"ZZZ"`. -/
theorem unknown_currency_frame_witness :
    demoSnap.rates.lookup "ZZZ" = none ∧
    convertCurrency (some demoSnap) "ZZZ" "1" =
      ConvResult.unknownCurrency "Currency not available" ∧
    (applyConvertResult demoDisplay
      (ConvResult.unknownCurrency "Currency not available")).ratesBody = "old table" := by
  have h := unknown_currency_frame demoSnap "ZZZ" "1" demoDisplay rfl
  exact ⟨rfl, h.1, by rw [h.2.1]; rfl⟩

/-- A chain of triggers each arriving strictly within the quiet interval of its
predecessor collapses to a single invocation at last-trigger time + 300 with the
last trigger's arguments. -/
lemma debounceRun_chain {α : Type} (events : List (ℕ × α)) (hne : events ≠ [])
    (hfast : events.Chain' fun p q => q.1 < p.1 + 300) :
    debounceRun 300 events = [((events.getLast hne).1 + 300, (events.getLast hne).2)] := by
  induction events with
  | nil => exact absurd rfl hne
  | cons e rest ih =>
    cases rest with
    | nil =>
      obtain ⟨t, a⟩ := e
      simp [debounceRun, List.getLast]
    | cons f rest2 =>
      obtain ⟨t, a⟩ := e
      obtain ⟨t2, b⟩ := f
      rw [List.chain'_cons] at hfast
      have hne2 : ((t2, b) :: rest2 : List (ℕ × α)) ≠ [] := by simp
      rw [List.getLast_cons hne2]
      simp only [debounceRun, if_pos hfast.1, List.nil_append]
      exact ih hne2 hfast.2

/-- C6: any nonempty run of `Debounced` triggers, each arriving within less than
the 300-time-unit quiet interval of the previous one, makes the debounced
`convertCurrency` action fire exactly once, one full quiet interval after the
last trigger and with that trigger's arguments (each new trigger having cancelled
and replaced the single pending timer). -/
theorem debounce_collapses_triggers {α : Type} (events : List (ℕ × α)) (hne : events ≠ [])
    (hfast : events.Chain' fun p q => q.1 < p.1 + 300) :
    debounceRun 300 events = [((events.getLast hne).1 + 300, (events.getLast hne).2)] ∧
    (debounceRun 300 events).length = 1 :=
  ⟨debounceRun_chain events hne hfast, by rw [debounceRun_chain events hne hfast]; rfl⟩

/-- Witness for C6: three triggers 0, 100, 250 (gaps 100 and 150, both < 300)
produce one invocation at 550 with the last arguments. -/
theorem debounce_collapses_triggers_witness :
    ([(0, "a"), (100, "b"), (250, "c")] : List (ℕ × String)) ≠ [] ∧
    debounceRun 300 [(0, "a"), (100, "b"), (250, "c")] = [(550, "c")] := by
  have h := debounce_collapses_triggers [(0, "a"), (100, "b"), (250, "c")] (by simp)
    (List.chain'_cons.mpr ⟨by norm_num, List.chain'_cons.mpr ⟨by norm_num,
      List.chain'_singleton _⟩⟩)
  exact ⟨by simp, by rw [h.1]; rfl⟩

/-- C10: a raw amount that starts with a parseable numeric prefix followed by
trailing non-numeric characters parses to the value of that prefix — not zero
and not an error; in particular `"12abc"` converts with amount 12 (so the demo
rate 100 yields 1200 formatted). -/
theorem numeric_prefix_parsed (ds rest : List Char) (c : Char) (hne : ds ≠ [])
    (hds : ∀ x ∈ ds, x.isDigit = true) (hc : blocksNumericTail c = true) :
    parseFloatQ (ds ++ c :: rest) = some (digitsToNat ds : ℚ) ∧
    parseFloatOrZero (String.mk (ds ++ c :: rest)) = (digitsToNat ds : ℚ) ∧
    parseFloatOrZero "12abc" = 12 ∧
    convertCurrency (some demoSnap) "XXX" "12abc" =
      ConvResult.success "रू 1,200.00" "1 XXX = NPR 100.00" := by
  have hmain : parseFloatQ (ds ++ c :: rest) = some (digitsToNat ds : ℚ) :=
    parseFloatQ_digit_prefix ds (c :: rest) hne hds (by simpa using hc)
  have h12 : parseFloatOrZero "12abc" = 12 := by
    have h := parseFloatQ_digit_prefix ['1', '2'] ['a', 'b', 'c'] (by simp) (by decide) (by decide)
    have h2 : parseFloatQ "12abc".data = some ((12 : ℕ) : ℚ) := h
    rw [parseFloatOrZero, h2]
    norm_num
  refine ⟨hmain, ?_, h12, ?_⟩
  · rw [parseFloatOrZero, show (String.mk (ds ++ c :: rest)).data = ds ++ c :: rest from rfl,
      hmain]
    rfl
  · have hlook2 : demoSnap.rates.lookup "XXX" = some demoRate := rfl
    have hmul : parseFloatOrZero "12abc" * demoRate.sell = 1200 := by
      rw [h12]; norm_num [demoRate]
    simp only [convertCurrency, hlook2, hmul, formatNPR_at_1200]
    rw [rateDescription, show demoRate.sell = 100 from rfl, toFixed2_at_100]
    decide

/-- Witness for C10 at `"12abc"` decomposed as digits `12`, blocker `'a'`, tail `"bc"`. -/
theorem numeric_prefix_parsed_witness :
    parseFloatQ (['1', '2'] ++ 'a' :: ['b', 'c']) = some (digitsToNat ['1', '2'] : ℚ) ∧
    parseFloatOrZero "12abc" = 12 :=
  ⟨(numeric_prefix_parsed ['1', '2'] ['b', 'c'] 'a' (by simp) (by decide) (by decide)).1,
    (numeric_prefix_parsed ['1', '2'] ['b', 'c'] 'a' (by simp) (by decide) (by decide)).2.2.1⟩

/-- C9: every monetary string the program renders carries exactly two decimal
digits: `formatNPR` output (the result display) for every amount, and the
`toFixed(2)` strings used for the rate description and for the buy/sell cells of
the rates table. -/
theorem two_decimal_invariant :
    (∀ q : ℚ, hasTwoDecimals (formatNPR q)) ∧
    (∀ q : ℚ, hasTwoDecimals (toFixed2 q)) ∧
    (∀ currency rate, rateDescription currency rate =
      "1 " ++ currency ++ " = NPR " ++ toFixed2 rate.sell) ∧
    (∀ rate : Rate, ratesRowCells rate = (toFixed2 rate.buy, toFixed2 rate.sell)) := by
  refine ⟨?_, ?_, fun _ _ => rfl, fun _ => rfl⟩
  · intro q
    by_cases hq : q = 0
    · subst hq
      refine ⟨"रू 0", '0', '0', ?_, by decide, by decide, by decide⟩
      rw [formatNPR_at_zero]
      decide
    · refine ⟨(if q < 0 then "-" else "") ++ "रू " ++ intGroupedStr q,
        digitChar (fixScaled q % 100 / 10 % 10), digitChar (fixScaled q % 100 % 10),
        ?_, digitChar_isDigit (Nat.mod_lt _ (by norm_num)),
        digitChar_isDigit (Nat.mod_lt _ (by norm_num)), ?_⟩
      · rw [formatNPR, if_neg hq]
        rfl
      · intro hmem
        rw [str_data_append, str_data_append] at hmem
        rcases List.mem_append.mp hmem with h1 | h1
        · rcases List.mem_append.mp h1 with h2 | h2
          · by_cases hneg : q < 0
            · rw [if_pos hneg] at h2
              exact absurd h2 (by decide)
            · rw [if_neg hneg] at h2
              exact absurd h2 (by decide)
          · exact absurd h2 (by decide)
        · rcases mem_intGroupedStr h1 with h2 | ⟨d, hd, h2⟩
          · exact absurd h2 (by decide)
          · exact digitChar_ne_dot hd h2.symm
  · intro q
    refine ⟨(if q < 0 then "-" else "") ++ String.mk (natDigitsChars (fixScaled q / 100)),
      digitChar (fixScaled q % 100 / 10 % 10), digitChar (fixScaled q % 100 % 10),
      rfl, digitChar_isDigit (Nat.mod_lt _ (by norm_num)),
      digitChar_isDigit (Nat.mod_lt _ (by norm_num)), ?_⟩
    intro hmem
    rw [str_data_append] at hmem
    rcases List.mem_append.mp hmem with h1 | h1
    · by_cases hneg : q < 0
      · rw [if_pos hneg] at h1
        exact absurd h1 (by decide)
      · rw [if_neg hneg] at h1
        exact absurd h1 (by decide)
    · rcases mem_natDigitsChars h1 with ⟨d, hd, h2⟩
      exact digitChar_ne_dot hd h2.symm
